
import Mathlib

/-!
Verification of the Noro prediction-market contract
(`src/contracts/PredictXMarket.cs`, class `NoroMarket`) against its
natural-language specification.

The contract is shallowly embedded: the persistent key-value store is a
record of partial maps (one per storage prefix used by the source), C#
`BigInteger` becomes `Int`, C# strings become `List Char`, raw storage
byte contents become `List Nat`, and a method that can `throw` becomes a
function into `Except Err _`.  An invocation that ends in `Except.error`
models a faulted Neo invocation: the execution environment rolls back
every storage write and emits no events, so the pre-state is the
post-state.  Runtime context (`Runtime.Time`, `Runtime.Transaction.Sender`,
`Runtime.CallingScriptHash`) is passed explicitly in an `Env`.
-/

namespace NoroSpec

/-- C# strings are modelled as lists of characters. -/
abbrev Str := List Char

/-- Point update of a partial map (models `StorageMap.Put` / `.Delete`:
`none` deletes the entry). -/
def upd {α β : Type} [DecidableEq α] (f : α → Option β) (k : α) (v : Option β) :
    α → Option β :=
  fun x => if x = k then v else f x

/-- `"0123456789"`-digit character for a digit value (`(char)('0' + d)`). -/
def digChar (d : Nat) : Char := Char.ofNat (48 + d)

/-- Decimal rendering of a natural number, most-significant digit first,
with explicit fuel so that it reduces definitionally
(models `BigInteger.ToString()` for non-negative values). -/
def natToStrAux : Nat → Nat → Str
  | 0, _ => []
  | fuel + 1, n => if n = 0 then [] else natToStrAux fuel (n / 10) ++ [digChar (n % 10)]

/-- `BigInteger.ToString()` for a natural number. -/
def natToStr (n : Nat) : Str := if n = 0 then ['0'] else natToStrAux n n

/-- One fold step of decimal parsing: `acc * 10 + (c - '0')`. -/
def parseStep (acc : Nat) (c : Char) : Nat := acc * 10 + (c.toNat - 48)

/-- `BigInteger.Parse` on a string of decimal digits; `none` models the
`FormatException` thrown on an empty or non-digit string. -/
def parseNat? (s : Str) : Option Nat :=
  if s.isEmpty then none
  else if s.all Char.isDigit then some (s.foldl parseStep 0) else none

/-- Splits a string at its first `'_'`, mirroring the manual
index-scanning loop of `OnNEP17Payment` (lines 629-658 of the source):
returns the part before and the part after the first underscore. -/
def splitAtUnderscore : Str → Option (Str × Str)
  | [] => none
  | c :: rest =>
    if c = '_' then some ([], rest)
    else (splitAtUnderscore rest).map (fun p => (c :: p.1, p.2))

/-- Manual ASCII lower-casing used on the side token
(`if (c >= 'A' && c <= 'Z') c = (char)(c + 32)`). -/
def toLowerManual (c : Char) : Char :=
  if 'A' ≤ c ∧ c ≤ 'Z' then Char.ofNat (c.toNat + 32) else c

/-- ASCII upper-casing, modelling C# `string.ToUpper()` on the ASCII
payloads the contract compares against. -/
def upperChar (c : Char) : Char :=
  if 'a' ≤ c ∧ c ≤ 'z' then Char.ofNat (c.toNat - 32) else c

/-- `string.ToUpper()`. -/
def upperStr (s : Str) : Str := s.map upperChar

/-- `string.Contains(sub)`: contiguous-substring test. -/
def containsSub (sub : Str) : Str → Bool
  | [] => sub.isEmpty
  | c :: rest => sub.isPrefixOf (c :: rest) || containsSub sub rest

/-- `string.Trim()`: drop leading and trailing whitespace. -/
def trimStr (s : Str) : Str :=
  ((s.dropWhile Char.isWhitespace).reverse.dropWhile Char.isWhitespace).reverse

/-! ### String and byte-string literals used by the contract -/

/-- The side token `"yes"`. -/
def sideYes : Str := "yes".toList

/-- The side token `"no"`. -/
def sideNo : Str := "no".toList

/-- `"YES"`. -/
def strYES : Str := "YES".toList

/-- `"NO"`. -/
def strNO : Str := "NO".toList

/-- `"Yes"`. -/
def yesMixedWord : Str := "Yes".toList

/-- `"No"`. -/
def noMixedWord : Str := "No".toList

/-- `"outcome"`. -/
def outcomeWord : Str := "outcome".toList

/-- Double-quote character. -/
def dq : Char := '\"'

/-- Single-quote character. -/
def sq : Char := '\''

/-- `"\"outcome\":\"YES\""`. -/
def litOutcomeYES : Str := dq :: outcomeWord ++ [dq, ':', dq] ++ strYES ++ [dq]

/-- `"'outcome':'YES'"`. -/
def litOutcomeYESsq : Str := sq :: outcomeWord ++ [sq, ':', sq] ++ strYES ++ [sq]

/-- `"\"outcome\":\"yes\""`. -/
def litOutcomeYesLower : Str := dq :: outcomeWord ++ [dq, ':', dq] ++ sideYes ++ [dq]

/-- `"\"outcome\":\"Yes\""`. -/
def litOutcomeYesMixed : Str := dq :: outcomeWord ++ [dq, ':', dq] ++ yesMixedWord ++ [dq]

/-- `"\"outcome\":\"NO\""`. -/
def litOutcomeNO : Str := dq :: outcomeWord ++ [dq, ':', dq] ++ strNO ++ [dq]

/-- `"'outcome':'NO'"`. -/
def litOutcomeNOsq : Str := sq :: outcomeWord ++ [sq, ':', sq] ++ strNO ++ [sq]

/-- `"\"outcome\":\"no\""`. -/
def litOutcomeNoLower : Str := dq :: outcomeWord ++ [dq, ':', dq] ++ sideNo ++ [dq]

/-- `"\"outcome\":\"No\""`. -/
def litOutcomeNoMixed : Str := dq :: outcomeWord ++ [dq, ':', dq] ++ noMixedWord ++ [dq]

/-- `"\"YES\""`. -/
def litQuotedYES : Str := [dq] ++ strYES ++ [dq]

/-- `"\"NO\""`. -/
def litQuotedNO : Str := [dq] ++ strNO ++ [dq]

/-! ### Storage keys

`createMarket`, `GetMarket`, `BuyYes`/`BuyNo` and `GetProbability` key the
per-market storage maps by `(ByteString)marketId`, the little-endian
two's-complement serialization of the `BigInteger` id.  `OnOracleCallback`
instead keys its writes by `StringToBytes(marketId.ToString())`, the ASCII
bytes of the decimal rendering.  Both key shapes are modelled explicitly
as byte lists so this difference is preserved. -/

/-- Little-endian base-256 digits of a natural number (empty for 0),
with explicit fuel so the definition reduces definitionally. -/
def leBytesAux : Nat → Nat → List Nat
  | 0, _ => []
  | fuel + 1, n => if n = 0 then [] else n % 256 :: leBytesAux fuel (n / 256)

/-- `(ByteString)marketId`: little-endian two's-complement bytes of a
non-negative `BigInteger` (a padding zero byte is appended when the top
byte would read as a sign bit). -/
def intKey (n : Nat) : List Nat :=
  let b := leBytesAux n n
  if 128 ≤ b.getLastD 0 then b ++ [0] else b

/-- `StringToBytes(marketId.ToString())`: ASCII bytes of the decimal id. -/
def strKey (n : Nat) : List Nat := (natToStr n).map Char.toNat

/-- Payer-scoped pending-payment key:
`caller.ToString() + "_" + marketId.ToString() + "_" + side`. -/
def payKeyOf (payer : Str) (marketId : Nat) (side : Str) : Str :=
  payer ++ '_' :: natToStr marketId ++ '_' :: side

/-- "Transaction-scoped" pending-payment key:
`"tx_" + caller.ToString() + "_" + marketId.ToString() + "_" + side`.
Despite its name it contains nothing identifying the transaction. -/
def txKeyOf (payer : Str) (marketId : Nat) (side : Str) : Str :=
  't' :: 'x' :: '_' :: payKeyOf payer marketId side

/-- Per-user share key: `marketId.ToString() + "_" + side + "_" + user.ToString()`. -/
def userKeyOf (marketId : Nat) (side : Str) (user : Str) : Str :=
  natToStr marketId ++ '_' :: side ++ '_' :: user

/-- Transfer tag `marketId.ToString() + "_" + side` used both as the
`data` of a routed deposit and as the `transferData` of the pull transfer
attempted inside `BuyYes`/`BuyNo`. -/
def depositTag (marketId : Nat) (side : Str) : Str :=
  natToStr marketId ++ '_' :: side

/-! ### Data model -/

/-- Script-hash of the native GAS token contract (an opaque identity;
only equality with it matters). -/
def gasHash : Int := 0

/-- Script-hash of the native Oracle contract (distinct from `gasHash`). -/
def oracleHash : Int := 1

/-- The persistent key-value store of the contract, one field per storage
prefix of the source (`question`, `desc`, `cat`, `resolveDate`,
`oracleUrl`, `creator`, `createdAt`, `yesShares`, `noShares`, `resolved`,
`outcome`, `pendingPay`, `userYes`, `userNo`, plus the `marketCount`
cell), together with the contract's GAS balance
(`GAS.BalanceOf(Runtime.ExecutingScriptHash)`). -/
structure ContractState where
  marketCount : Nat
  question : Nat → Option Str
  description : Nat → Option Str
  category : Nat → Option Str
  resolveDateMap : Nat → Option Int
  oracleUrlMap : Nat → Option Str
  creatorMap : Nat → Option Str
  createdAtMap : Nat → Option Int
  yesSharesMap : Nat → Option Int
  noSharesMap : Nat → Option Int
  resolvedMap : List Nat → Option (List Nat)
  outcomeMap : List Nat → Option (List Nat)
  pendingPay : Str → Option Int
  userYes : Str → Option Int
  userNo : Str → Option Int
  contractBalance : Int

/-- Runtime context of one invocation: `Runtime.Time`,
`Runtime.Transaction.Sender`, `Runtime.CallingScriptHash`, and whether a
pull-style `SafeTransfer` from the sender would succeed (the sender's
balance and witness, which live outside the contract). -/
structure Env where
  time : Int
  sender : Str
  callingScriptHash : Int
  transferOk : Bool

/-- The four notification events of the contract. -/
inductive Event
  | marketCreated (id : Str) (question : Str) (category : Str)
      (resolveDate : Int) (oracleUrl : Str)
  | tradeExecuted (id : Str) (trader : Str) (isYes : Bool) (amount : Int)
  | marketResolved (id : Str) (outcome : Bool)
  | payoutDistributed (id : Str) (recipient : Str) (amount : Int)
  deriving DecidableEq

/-- The distinct `throw new Exception(...)` sites of the contract
(plus the `FormatException` of `BigInteger.Parse`). -/
inductive Err
  | invalidArgument
  | marketNotFound
  | alreadyResolved
  | notResolved
  | resolveDatePassed
  | resolveDateNotArrived
  | insufficientPayment
  | paymentVerificationFailed
  | unauthorized
  | oracleError
  | numberFormat
  | invalidSide
  | invalidFormat
  | emptyPool
  deriving DecidableEq

/-- Result of a successful invocation: the new store, the emitted events,
the inbound pull transfers performed via `SafeTransfer`, and the outbound
token transfers performed (the contract never performs any). -/
structure InvocationOut where
  state : ContractState
  events : List Event
  transfersIn : List (Str × Int)
  transfersOut : List (Str × Int)

/-- The `MarketData` record returned by `GetMarket`. -/
structure MarketData where
  id : Str
  question : Str
  description : Option Str
  category : Option Str
  resolveDate : Int
  oracleUrl : Option Str
  creator : Option Str
  createdAt : Int
  resolved : Bool
  outcome : Bool
  yesShares : Int
  noShares : Int
  deriving DecidableEq

/-- Boolean reconstruction used by `GetMarket` for the `resolved` and
`outcome` entries: `bytes.Length > 0 && bytes[0] != 0` on the raw stored
content, absent entries read as `false`. -/
def rawBool : Option (List Nat) → Bool
  | none => false
  | some [] => false
  | some (b :: _) => b != 0

/-! ### Read-only entry points -/

/-- `GetMarket` (source lines 487-546).  Returns `none` when the
`question` entry is absent; integer fields read absent entries as 0
(the devpack `BigInteger` cast of a missing value). -/
def getMarket (s : ContractState) (marketId : Nat) : Option MarketData :=
  match s.question marketId with
  | none => none
  | some q =>
    some
      { id := natToStr marketId
        question := q
        description := s.description marketId
        category := s.category marketId
        resolveDate := (s.resolveDateMap marketId).getD 0
        oracleUrl := s.oracleUrlMap marketId
        creator := s.creatorMap marketId
        createdAt := (s.createdAtMap marketId).getD 0
        resolved := rawBool (s.resolvedMap (intKey marketId))
        outcome := rawBool (s.outcomeMap (intKey marketId))
        yesShares := (s.yesSharesMap marketId).getD 0
        noShares := (s.noSharesMap marketId).getD 0 }

/-- `GetProbability` (source lines 549-564). -/
def getProbability (s : ContractState) (marketId : Nat) : Int :=
  match getMarket s marketId with
  | none => 0
  | some market =>
    let totalShares := market.yesShares + market.noShares
    if totalShares = 0 then 5000
    else market.yesShares * 10000 / totalShares

/-- `GetMarketCount` (source lines 567-572). -/
def getMarketCount (s : ContractState) : Nat := s.marketCount

/-- `GetUserYesShares` (source lines 575-583). -/
def getUserYesShares (s : ContractState) (marketId : Nat) (user : Str) : Int :=
  (s.userYes (userKeyOf marketId sideYes user)).getD 0

/-- `GetUserNoShares` (source lines 586-594). -/
def getUserNoShares (s : ContractState) (marketId : Nat) (user : Str) : Int :=
  (s.userNo (userKeyOf marketId sideNo user)).getD 0

/-! ### State-mutating entry points -/

/-- `OnNEP17Payment` (source lines 607-681).  Returns the updated store;
an `Except.error` models the faulted (rolled-back) invocation.  The
early `return` branches (non-GAS caller, non-positive amount, absent
data) leave the store untouched but succeed. -/
def onNEP17Payment (callingScriptHash : Int) (payer : Str) (amount : Int)
    (data : Option Str) (s : ContractState) : Except Err ContractState :=
  if callingScriptHash ≠ gasHash then .ok s
  else if amount ≤ 0 then .ok s
  else
    match data with
    | none => .ok s
    | some dataStr =>
      match splitAtUnderscore dataStr with
      | none => .error .invalidFormat
      | some (marketIdStr, sidePart) =>
        -- `underscoreIndex >= dataStr.Length - 1`: underscore is the last char
        if sidePart.isEmpty then .error .invalidFormat
        else
          let side := sidePart.map toLowerManual
          match parseNat? marketIdStr with
          | none => .error .numberFormat
          | some marketId =>
            if side ≠ sideYes ∧ side ≠ sideNo then .error .invalidSide
            else
              let txPaymentKey := txKeyOf payer marketId side
              let txTotalPayment :=
                match s.pendingPay txPaymentKey with
                | none => amount
                | some existing => existing + amount
              let s1 := { s with pendingPay := upd s.pendingPay txPaymentKey (some txTotalPayment) }
              let paymentKey := payKeyOf payer marketId side
              let totalPayment :=
                match s1.pendingPay paymentKey with
                | none => amount
                | some existing => existing + amount
              .ok { s1 with pendingPay := upd s1.pendingPay paymentKey (some totalPayment) }

/-- The available pending balance computed at the start of
`BuyYes`/`BuyNo` (source lines 162-175): the sum of the
"transaction-scoped" and the payer-scoped pending entries, absent
entries counting as 0. -/
def availablePending (s : ContractState) (caller : Str) (marketId : Nat) (side : Str) : Int :=
  (s.pendingPay (txKeyOf caller marketId side)).getD 0 +
    (s.pendingPay (payKeyOf caller marketId side)).getD 0

/-- Common body of `BuyYes` (source lines 141-230) and `BuyNo` (source
lines 236-325); the two methods are textually identical up to the side
token and which share maps they update.  When the pending balance is
short, the pull `SafeTransfer` (modelled by `env.transferOk`) triggers the
nested `OnNEP17Payment` with the `"<marketId>_<side>"` tag, after which
the pending entries are re-read. -/
def buyShares (isYes : Bool) (env : Env) (s : ContractState) (marketId : Nat)
    (amount : Int) : Except Err InvocationOut :=
  if amount ≤ 0 then .error .invalidArgument
  else
    match getMarket s marketId with
    | none => .error .marketNotFound
    | some market =>
      if market.resolved then .error .alreadyResolved
      else if market.resolveDate ≤ env.time then .error .resolveDatePassed
      else
        let caller := env.sender
        let side := if isYes then sideYes else sideNo
        let paymentKey := payKeyOf caller marketId side
        let txPaymentKey := txKeyOf caller marketId side
        let checked : Except Err (ContractState × Option Int × Option Int × List (Str × Int)) :=
          let txPaymentAmount := s.pendingPay txPaymentKey
          let paymentAmount := s.pendingPay paymentKey
          let availableAmount := availablePending s caller marketId side
          if availableAmount < amount then
            if env.transferOk then
              match onNEP17Payment gasHash caller amount (some (depositTag marketId side)) s with
              | .error e => .error e
              | .ok sAfter =>
                let tx1 := sAfter.pendingPay txPaymentKey
                let pay1 := sAfter.pendingPay paymentKey
                if tx1.getD 0 + pay1.getD 0 < amount then .error .paymentVerificationFailed
                else .ok (sAfter, tx1, pay1, [(caller, amount)])
            else .error .insufficientPayment
          else .ok (s, txPaymentAmount, paymentAmount, [])
        match checked with
        | .error e => .error e
        | .ok (s1, txPaymentAmount, paymentAmount, pulls) =>
          -- Clear the payments (consume them)
          let s2 :=
            match txPaymentAmount with
            | none => s1
            | some _ => { s1 with pendingPay := upd s1.pendingPay txPaymentKey none }
          let s3 :=
            match paymentAmount with
            | none => s2
            | some p =>
              let remaining := p - amount
              if 0 < remaining then
                { s2 with pendingPay := upd s2.pendingPay paymentKey (some remaining) }
              else { s2 with pendingPay := upd s2.pendingPay paymentKey none }
          -- Update shares, then track user shares
          let s4 :=
            if isYes then
              { s3 with yesSharesMap := (upd s3.yesSharesMap marketId (some ((s3.yesSharesMap marketId).getD 0 + amount))) }
            else
              { s3 with noSharesMap := (upd s3.noSharesMap marketId (some ((s3.noSharesMap marketId).getD 0 + amount))) }
          let userKey := userKeyOf marketId side caller
          let s5 :=
            if isYes then
              { s4 with userYes := (upd s4.userYes userKey (some ((s4.userYes userKey).getD 0 + amount))) }
            else
              { s4 with userNo := (upd s4.userNo userKey (some ((s4.userNo userKey).getD 0 + amount))) }
          .ok ⟨s5, [.tradeExecuted (natToStr marketId) caller isYes amount], pulls, []⟩

/-- `BuyYes` (source lines 141-230). -/
def buyYes (env : Env) (s : ContractState) (marketId : Nat) (amount : Int) :
    Except Err InvocationOut :=
  buyShares true env s marketId amount

/-- `BuyNo` (source lines 236-325). -/
def buyNo (env : Env) (s : ContractState) (marketId : Nat) (amount : Int) :
    Except Err InvocationOut :=
  buyShares false env s marketId amount

/-- `CreateMarket` (source lines 84-135).  The `resolved` and `outcome`
entries are initialised under the integer-bytes key with a single zero
byte (boolean `false`). -/
def createMarket (env : Env) (s : ContractState) (question description category : Str)
    (resolveDate : Int) (oracleUrl : Str) : Except Err InvocationOut :=
  if question.isEmpty ∨ description.isEmpty then .error .invalidArgument
  else if resolveDate ≤ env.time then .error .invalidArgument
  else
    let marketId := s.marketCount + 1
    let s1 : ContractState :=
      { s with
        marketCount := marketId
        question := upd s.question marketId (some question)
        description := upd s.description marketId (some description)
        category := upd s.category marketId (some category)
        resolveDateMap := upd s.resolveDateMap marketId (some resolveDate)
        oracleUrlMap := upd s.oracleUrlMap marketId (some oracleUrl)
        creatorMap := upd s.creatorMap marketId (some env.sender)
        createdAtMap := upd s.createdAtMap marketId (some env.time)
        yesSharesMap := upd s.yesSharesMap marketId (some 0)
        noSharesMap := upd s.noSharesMap marketId (some 0)
        resolvedMap := upd s.resolvedMap (intKey marketId) (some [0])
        outcomeMap := upd s.outcomeMap (intKey marketId) (some [0]) }
    .ok ⟨s1, [.marketCreated (natToStr marketId) question category resolveDate oracleUrl], [], []⟩

/-- `RequestResolve` (source lines 336-359).  `Oracle.Request` is an
external call: it writes no contract storage and emits no contract
event, so a successful invocation leaves the store unchanged. -/
def requestResolve (env : Env) (s : ContractState) (marketId : Nat)
    (oracleUrl filterExpr : Str) (gasForResponse : Int) : Except Err InvocationOut :=
  match getMarket s marketId with
  | none => .error .marketNotFound
  | some market =>
    if market.resolved then .error .alreadyResolved
    else if env.time < market.resolveDate then .error .resolveDateNotArrived
    else
      let _gas : Int := if gasForResponse < 10000000 then 10000000 else gasForResponse
      let _url := oracleUrl
      let _filter := filterExpr
      .ok ⟨s, [], [], []⟩

/-- The substring-matching outcome parser of `OnOracleCallback` (source
lines 404-428), with the disjuncts in source order. -/
def parseOutcome (resultString : Str) : Option Bool :=
  if containsSub litOutcomeYES resultString
      || containsSub litOutcomeYESsq resultString
      || containsSub litOutcomeYesLower resultString
      || containsSub litOutcomeYesMixed resultString
      || containsSub strYES (upperStr resultString)
      || (trimStr resultString == litQuotedYES)
      || (trimStr resultString == strYES) then
    some true
  else if containsSub litOutcomeNO resultString
      || containsSub litOutcomeNOsq resultString
      || containsSub litOutcomeNoLower resultString
      || containsSub litOutcomeNoMixed resultString
      || containsSub strNO (upperStr resultString)
      || (trimStr resultString == litQuotedNO)
      || (trimStr resultString == strNO) then
    some false
  else none

/-- `OnOracleCallback` (source lines 369-439).  Note that the `resolved`
and `outcome` writes are keyed by `StringToBytes(marketId.ToString())`
(`strKey`), not by the `(ByteString)marketId` key (`intKey`) that
`GetMarket` reads. -/
def onOracleCallback (env : Env) (s : ContractState) (url : Str) (userData : Str)
    (code : Int) (result : Str) : Except Err InvocationOut :=
  if env.callingScriptHash ≠ oracleHash then .error .unauthorized
  else if code ≠ 0 then .error .oracleError
  else
    match parseNat? userData with
    | none => .error .numberFormat
    | some marketId =>
      match getMarket s marketId with
      | none => .error .marketNotFound
      | some market =>
        if market.resolved then .error .alreadyResolved
        else
          match parseOutcome result with
          | none => .error .invalidFormat
          | some outcome =>
            let marketIdBytes := strKey marketId
            let _url := url
            .ok ⟨{ s with
                resolvedMap := upd s.resolvedMap marketIdBytes (some [1])
                outcomeMap := (upd s.outcomeMap marketIdBytes (some [if outcome then 1 else 0])) },
              [.marketResolved (natToStr marketId) outcome], [], []⟩

/-- `Payout` (source lines 443-484).  The per-share rates are computed
and discarded; no token transfer is performed, only the
`PayoutDistributed` event naming the transaction sender and the whole
contract balance is emitted. -/
def payout (env : Env) (s : ContractState) (marketId : Nat) : Except Err InvocationOut :=
  match getMarket s marketId with
  | none => .error .marketNotFound
  | some market =>
    if ¬ market.resolved then .error .notResolved
    else
      let totalPool := market.yesShares + market.noShares
      if totalPool = 0 then .error .emptyPool
      else
        let winningSide := market.outcome
        let contractBalance := s.contractBalance
        let _payoutPerShareYes : Int :=
          if winningSide ∧ 0 < market.yesShares then
            contractBalance * market.yesShares / totalPool / market.yesShares
          else 0
        let _payoutPerShareNo : Int :=
          if ¬ winningSide ∧ 0 < market.noShares then
            contractBalance * market.noShares / totalPool / market.noShares
          else 0
        .ok ⟨s, [.payoutDistributed (natToStr marketId) env.sender contractBalance], [], []⟩

/-! ### Whole-invocation view -/

/-- One state-mutating entry-point invocation. -/
inductive Op
  | createMarketOp (question description category : Str) (resolveDate : Int) (oracleUrl : Str)
  | buyYesOp (marketId : Nat) (amount : Int)
  | buyNoOp (marketId : Nat) (amount : Int)
  | requestResolveOp (marketId : Nat) (oracleUrl filterExpr : Str) (gasForResponse : Int)
  | oracleCallbackOp (url userData : Str) (code : Int) (result : Str)
  | payoutOp (marketId : Nat)

/-- Dispatch one invocation. -/
def runOp (env : Env) (s : ContractState) : Op → Except Err InvocationOut
  | .createMarketOp q d c rd u => createMarket env s q d c rd u
  | .buyYesOp m a => buyYes env s m a
  | .buyNoOp m a => buyNo env s m a
  | .requestResolveOp m u f g => requestResolve env s m u f g
  | .oracleCallbackOp u ud c r => onOracleCallback env s u ud c r
  | .payoutOp m => payout env s m

/-- The store after a completed invocation: a faulted invocation is
rolled back by the execution environment, leaving the pre-state. -/
def finalStateOf (env : Env) (s : ContractState) (op : Op) : ContractState :=
  match runOp env s op with
  | .ok out => out.state
  | .error _ => s

/-- Events visible after a completed invocation (none when it faulted). -/
def finalEventsOf (env : Env) (s : ContractState) (op : Op) : List Event :=
  match runOp env s op with
  | .ok out => out.events
  | .error _ => []

/-- The aggregate yes-share total of a market as stored. -/
def yesSharesOf (s : ContractState) (marketId : Nat) : Int :=
  (s.yesSharesMap marketId).getD 0

/-- The aggregate no-share total of a market as stored. -/
def noSharesOf (s : ContractState) (marketId : Nat) : Int :=
  (s.noSharesMap marketId).getD 0

/-- The resolved flag of a market as `GetMarket` reconstructs it. -/
def resolvedFlagOf (s : ContractState) (marketId : Nat) : Bool :=
  rawBool (s.resolvedMap (intKey marketId))

/-- Well-formedness of a reachable store, as needed for the share
invariants: share totals are non-negative, and share entries exist
only for already-allocated market ids (`createMarket` initialises both
totals of each id it allocates and nothing ever deletes them). -/
def sharesInv (s : ContractState) : Prop :=
  (∀ m, 0 ≤ yesSharesOf s m) ∧ (∀ m, 0 ≤ noSharesOf s m) ∧
  (∀ m, s.yesSharesMap m ≠ none → m ≤ s.marketCount) ∧
  (∀ m, s.noSharesMap m ≠ none → m ≤ s.marketCount)

/-! ### Concrete sample data

Used to instantiate the general theorems at explicit inputs. -/

/-- A sample payer address (the string form of an account hash). -/
def alice : Str := "alice".toList

/-- A store holding exactly one market, id 1, open, resolve date 1000,
created the way `createMarket` stores a fresh market; the contract holds
a GAS balance of 100. -/
def demoState : ContractState where
  marketCount := 1
  question := fun m => if m = 1 then some ['q'] else none
  description := fun m => if m = 1 then some ['d'] else none
  category := fun m => if m = 1 then some ['c'] else none
  resolveDateMap := fun m => if m = 1 then some 1000 else none
  oracleUrlMap := fun m => if m = 1 then some ['u'] else none
  creatorMap := fun m => if m = 1 then some alice else none
  createdAtMap := fun m => if m = 1 then some 0 else none
  yesSharesMap := fun m => if m = 1 then some 0 else none
  noSharesMap := fun m => if m = 1 then some 0 else none
  resolvedMap := fun k => if k = intKey 1 then some [0] else none
  outcomeMap := fun k => if k = intKey 1 then some [0] else none
  pendingPay := fun _ => none
  userYes := fun _ => none
  userNo := fun _ => none
  contractBalance := 100

/-- The `MarketData` record `GetMarket` returns for market 1 of `demoState`. -/
def demoMarket : MarketData where
  id := ['1']
  question := ['q']
  description := some ['d']
  category := some ['c']
  resolveDate := 1000
  oracleUrl := some ['u']
  creator := some alice
  createdAt := 0
  resolved := false
  outcome := false
  yesShares := 0
  noShares := 0

/-- `demoState` with market 1 resolved (as `GetMarket` sees it) with
outcome true and a non-empty pool: 3 yes shares, 2 no shares. -/
def resolvedDemoState : ContractState :=
  { demoState with
    resolvedMap := fun k => if k = intKey 1 then some [1] else none
    outcomeMap := fun k => if k = intKey 1 then some [1] else none
    yesSharesMap := fun m => if m = 1 then some 3 else none
    noSharesMap := fun m => if m = 1 then some 2 else none }

/-- `demoState` with no raw `resolved`/`outcome` entries at all (a
market created before those entries are written still reads them as
`false`). -/
def openDemoState : ContractState :=
  { demoState with resolvedMap := fun _ => none, outcomeMap := fun _ => none }

/-- The raw content `[0x00, 0x01]`: not absent, not a single zero byte,
and containing a nonzero byte, but with a zero first byte. -/
def zeroOneContent : List Nat := [0, 1]

/-- `demoState` with the raw `resolved` entry of market 1 holding
`[0x00, 0x01]`. -/
def c7State : ContractState :=
  { demoState with resolvedMap := fun k => if k = intKey 1 then some zeroOneContent else none }

/-- An invocation context for user trades: time 500 (before the resolve
date), sender `alice`, an ordinary (non-native) calling script, no
successful pull transfer available. -/
def tradeEnv : Env := ⟨500, alice, 99, false⟩

/-- An invocation context after the resolve date. -/
def lateEnv : Env := ⟨2000, alice, 99, false⟩

/-- The oracle's own invocation context: calling script hash is the
oracle contract. -/
def oracleEnv : Env := ⟨2000, alice, oracleHash, false⟩

/-! ### Basic lemmas about the helpers -/

@[simp] theorem upd_same {α β : Type} [DecidableEq α]
    (f : α → Option β) (k : α) (v : Option β) : upd f k v k = v := by
  simp [upd]

@[simp] theorem upd_ne {α β : Type} [DecidableEq α]
    (f : α → Option β) (k x : α) (v : Option β) (h : x ≠ k) :
    upd f k v x = f x := by
  simp [upd, h]

theorem digChar_toNat {d : Nat} (h : d < 10) : (digChar d).toNat = 48 + d := by
  interval_cases d <;> decide

theorem digChar_isDigit {d : Nat} (h : d < 10) : (digChar d).isDigit = true := by
  interval_cases d <;> decide

theorem digChar_ne_underscore {d : Nat} (h : d < 10) : digChar d ≠ '_' := by
  interval_cases d <;> decide

theorem natToStrAux_all_digit :
    ∀ fuel n, ∀ c ∈ natToStrAux fuel n, c.isDigit = true := by
  intro fuel
  induction fuel with
  | zero => intro n c hc; simp [natToStrAux] at hc
  | succ f ih =>
    intro n c hc
    by_cases hn : n = 0
    · simp [natToStrAux, hn] at hc
    · simp only [natToStrAux, if_neg hn, List.mem_append, List.mem_singleton] at hc
      rcases hc with hc | hc
      · exact ih _ c hc
      · subst hc; exact digChar_isDigit (Nat.mod_lt _ (by omega))

theorem natToStrAux_ne_nil {fuel n : Nat} (hn : n ≠ 0) (hf : fuel ≠ 0) :
    natToStrAux fuel n ≠ [] := by
  cases fuel with
  | zero => exact absurd rfl hf
  | succ f => simp [natToStrAux, hn]

theorem natToStrAux_foldl :
    ∀ fuel n a, n ≤ fuel →
      List.foldl parseStep a (natToStrAux fuel n) =
        a * 10 ^ (natToStrAux fuel n).length + n := by
  intro fuel
  induction fuel with
  | zero =>
    intro n a h
    have : n = 0 := Nat.le_zero.mp h
    subst this; simp [natToStrAux]
  | succ f ih =>
    intro n a h
    by_cases hn : n = 0
    · subst hn; simp [natToStrAux]
    · have hdiv : n / 10 ≤ f := by
        have h1 : n / 10 < n := Nat.div_lt_self (Nat.pos_of_ne_zero hn) (by omega)
        omega
      have hmod : n % 10 < 10 := Nat.mod_lt _ (by omega)
      simp only [natToStrAux, if_neg hn, List.foldl_append, List.foldl_cons,
        List.foldl_nil, List.length_append, List.length_singleton]
      rw [ih _ a hdiv]
      simp only [parseStep, digChar_toNat hmod]
      have : (48 : Nat) + n % 10 - 48 = n % 10 := by omega
      rw [this, pow_succ]
      have hnm : 10 * (n / 10) + n % 10 = n := Nat.div_add_mod n 10
      ring_nf
      omega

/-- Round trip: parsing the decimal rendering recovers the number. -/
theorem parseNat_natToStr (n : Nat) : parseNat? (natToStr n) = some n := by
  by_cases hn : n = 0
  · subst hn; decide
  · have hne : natToStrAux n n ≠ [] := natToStrAux_ne_nil hn hn
    have hdig : ∀ c ∈ natToStrAux n n, c.isDigit = true := natToStrAux_all_digit n n
    simp only [natToStr, if_neg hn, parseNat?, List.isEmpty_iff, List.all_eq_true]
    rw [if_neg hne, if_pos hdig]
    rw [natToStrAux_foldl n n 0 (Nat.le_refl n)]
    simp

theorem natToStr_ne_nil (n : Nat) : natToStr n ≠ [] := by
  by_cases hn : n = 0
  · subst hn; decide
  · simp only [natToStr, if_neg hn]; exact natToStrAux_ne_nil hn hn

theorem natToStr_no_underscore (n : Nat) : '_' ∉ natToStr n := by
  intro hmem
  by_cases hn : n = 0
  · subst hn; simp [natToStr] at hmem
  · simp only [natToStr, if_neg hn] at hmem
    have := natToStrAux_all_digit n n '_' hmem
    simp [Char.isDigit] at this

theorem splitAtUnderscore_append {pre post : Str} (h : '_' ∉ pre) :
    splitAtUnderscore (pre ++ '_' :: post) = some (pre, post) := by
  induction pre with
  | nil => simp [splitAtUnderscore]
  | cons c rest ih =>
    have hc : c ≠ '_' := fun hc => h (by simp [hc])
    have hrest : '_' ∉ rest := fun hr => h (by simp [hr])
    simp [splitAtUnderscore, hc, ih hrest]

theorem containsSub_iff (sub s : Str) :
    containsSub sub s = true ↔ sub <:+: s := by
  induction s with
  | nil =>
    simp only [containsSub, List.isEmpty_iff]
    constructor
    · intro h; subst h; exact List.nil_infix
    · intro h; exact List.eq_nil_of_infix_nil h
  | cons c rest ih =>
    simp only [containsSub, Bool.or_eq_true, List.isPrefixOf_iff_prefix, ih,
      List.infix_cons_iff]

theorem payKey_ne_txKey (payer : Str) (marketId : Nat) (side : Str) :
    payKeyOf payer marketId side ≠ txKeyOf payer marketId side := by
  intro h
  have := congrArg List.length h
  simp [txKeyOf] at this
  omega

theorem trimStr_within (s : Str) : trimStr s <:+: s := by
  have h1 : s.dropWhile Char.isWhitespace <:+ s := List.dropWhile_suffix _
  have h2 : (s.dropWhile Char.isWhitespace).reverse.dropWhile Char.isWhitespace <:+
      (s.dropWhile Char.isWhitespace).reverse := List.dropWhile_suffix _
  have h3 : trimStr s <+: s.dropWhile Char.isWhitespace := by
    rw [← List.reverse_suffix]
    simpa [trimStr] using h2
  exact h3.isInfix.trans h1.isInfix

theorem rawBool_true_iff (o : Option (List Nat)) :
    rawBool o = true ↔ ∃ b rest, o = some (b :: rest) ∧ b ≠ 0 := by
  cases o with
  | none => simp [rawBool]
  | some l =>
    cases l with
    | nil => simp [rawBool]
    | cons b rest =>
      simp only [rawBool, bne_iff_ne, ne_eq, Option.some.injEq]
      constructor
      · intro hb; exact ⟨b, rest, rfl, hb⟩
      · rintro ⟨b', rest', heq, hb⟩
        injection heq with h1 h2
        subst h1; exact hb

theorem contains_upper_of_contains (lit : Str) {sub s : Str}
    (hsub : containsSub sub (upperStr lit) = true)
    (h : containsSub lit s = true) :
    containsSub sub (upperStr s) = true := by
  have h1 : lit <:+: s := (containsSub_iff _ _).mp h
  have h2 : sub <:+: upperStr lit := (containsSub_iff _ _).mp hsub
  exact (containsSub_iff _ _).mpr
    (h2.trans (by simpa [upperStr] using h1.map upperChar))

theorem contains_upper_of_trim_eq (lit : Str) {sub s : Str}
    (hsub : containsSub sub (upperStr lit) = true)
    (h : trimStr s = lit) :
    containsSub sub (upperStr s) = true := by
  have h1 : lit <:+: s := h ▸ trimStr_within s
  have h2 : sub <:+: upperStr lit := (containsSub_iff _ _).mp hsub
  exact (containsSub_iff _ _).mpr
    (h2.trans (by simpa [upperStr] using h1.map upperChar))

theorem contains_eq_false_of_upper (lit : Str) {sub s : Str}
    (hsub : containsSub sub (upperStr lit) = true)
    (hns : containsSub sub (upperStr s) = false) :
    containsSub lit s = false := by
  cases hc : containsSub lit s
  · rfl
  · exact absurd (contains_upper_of_contains lit hsub hc) (by simp [hns])

theorem trim_beq_eq_false_of_upper (lit : Str) {sub s : Str}
    (hsub : containsSub sub (upperStr lit) = true)
    (hns : containsSub sub (upperStr s) = false) :
    (trimStr s == lit) = false := by
  cases hc : trimStr s == lit
  · rfl
  · exact absurd (contains_upper_of_trim_eq lit hsub (eq_of_beq hc)) (by simp [hns])

theorem parseOutcome_yes {s : Str} (h : containsSub strYES (upperStr s) = true) :
    parseOutcome s = some true := by
  simp [parseOutcome, h]

theorem parseOutcome_no {s : Str} (hy : containsSub strYES (upperStr s) = false)
    (hn : containsSub strNO (upperStr s) = true) :
    parseOutcome s = some false := by
  have k1 := contains_eq_false_of_upper litOutcomeYES (by decide) hy
  have k2 := contains_eq_false_of_upper litOutcomeYESsq (by decide) hy
  have k3 := contains_eq_false_of_upper litOutcomeYesLower (by decide) hy
  have k4 := contains_eq_false_of_upper litOutcomeYesMixed (by decide) hy
  have k5 := trim_beq_eq_false_of_upper litQuotedYES (by decide) hy
  have k6 := trim_beq_eq_false_of_upper strYES (by decide) hy
  simp [parseOutcome, hy, hn, k1, k2, k3, k4, k5, k6]

theorem parseOutcome_invalid {s : Str} (hy : containsSub strYES (upperStr s) = false)
    (hn : containsSub strNO (upperStr s) = false) :
    parseOutcome s = none := by
  have k1 := contains_eq_false_of_upper litOutcomeYES (by decide) hy
  have k2 := contains_eq_false_of_upper litOutcomeYESsq (by decide) hy
  have k3 := contains_eq_false_of_upper litOutcomeYesLower (by decide) hy
  have k4 := contains_eq_false_of_upper litOutcomeYesMixed (by decide) hy
  have k5 := trim_beq_eq_false_of_upper litQuotedYES (by decide) hy
  have k6 := trim_beq_eq_false_of_upper strYES (by decide) hy
  have m1 := contains_eq_false_of_upper litOutcomeNO (by decide) hn
  have m2 := contains_eq_false_of_upper litOutcomeNOsq (by decide) hn
  have m3 := contains_eq_false_of_upper litOutcomeNoLower (by decide) hn
  have m4 := contains_eq_false_of_upper litOutcomeNoMixed (by decide) hn
  have m5 := trim_beq_eq_false_of_upper litQuotedNO (by decide) hn
  have m6 := trim_beq_eq_false_of_upper strNO (by decide) hn
  simp [parseOutcome, hy, hn, k1, k2, k3, k4, k5, k6, m1, m2, m3, m4, m5, m6]

theorem onOracleCallback_resolves (env : Env) (s : ContractState)
    (url userData result : Str) (marketId : Nat) (market : MarketData) (b : Bool)
    (hauth : env.callingScriptHash = oracleHash)
    (hud : parseNat? userData = some marketId)
    (hm : getMarket s marketId = some market)
    (hres : market.resolved = false)
    (hout : parseOutcome result = some b) :
    onOracleCallback env s url userData 0 result =
      .ok ⟨{ s with
          resolvedMap := upd s.resolvedMap (strKey marketId) (some [1])
          outcomeMap := (upd s.outcomeMap (strKey marketId) (some [if b then 1 else 0])) },
        [Event.marketResolved (natToStr marketId) b], [], []⟩ := by
  simp [onOracleCallback, hauth, hud, hm, hres, hout]

theorem onNEP17_deposit_fresh_yes (s : ContractState) (payer : Str) (marketId : Nat)
    (amount : Int) (hA : 0 < amount)
    (htx : s.pendingPay (txKeyOf payer marketId sideYes) = none)
    (hpay : s.pendingPay (payKeyOf payer marketId sideYes) = none) :
    onNEP17Payment gasHash payer amount (some (depositTag marketId sideYes)) s =
      .ok { s with pendingPay :=
        (upd (upd s.pendingPay (txKeyOf payer marketId sideYes) (some amount))
          (payKeyOf payer marketId sideYes) (some amount)) } := by
  have hsplit : splitAtUnderscore (depositTag marketId sideYes) =
      some (natToStr marketId, sideYes) :=
    splitAtUnderscore_append (natToStr_no_underscore marketId)
  have hlower : sideYes.map toLowerManual = sideYes := by decide
  have hn0 : ¬ (amount ≤ 0) := by omega
  have hk : payKeyOf payer marketId sideYes ≠ txKeyOf payer marketId sideYes :=
    payKey_ne_txKey payer marketId sideYes
  have hse : ¬ sideYes = [] := by decide
  simp [onNEP17Payment, hsplit, hlower, parseNat_natToStr, htx, hpay, hk, hn0, hse]

theorem getMarket_fields {s : ContractState} {marketId : Nat} {market : MarketData}
    (h : getMarket s marketId = some market) :
    market.yesShares = yesSharesOf s marketId ∧
    market.noShares = noSharesOf s marketId ∧
    market.resolved = resolvedFlagOf s marketId ∧
    market.resolveDate = (s.resolveDateMap marketId).getD 0 := by
  rcases hqq : s.question marketId with _ | q
  · simp only [getMarket, hqq] at h; exact Option.noConfusion h
  · simp only [getMarket, hqq] at h
    injection h with h'
    subst h'
    exact ⟨rfl, rfl, rfl, rfl⟩

theorem getMarket_congr {s t : ContractState} (marketId : Nat) (v : Int)
    (hq : t.question = s.question) (hd : t.description = s.description)
    (hc : t.category = s.category) (hrd : t.resolveDateMap = s.resolveDateMap)
    (hu : t.oracleUrlMap = s.oracleUrlMap) (hcr : t.creatorMap = s.creatorMap)
    (hca : t.createdAtMap = s.createdAtMap) (hrm : t.resolvedMap = s.resolvedMap)
    (hom : t.outcomeMap = s.outcomeMap)
    (hys : t.yesSharesMap = upd s.yesSharesMap marketId (some v))
    (hns : t.noSharesMap = s.noSharesMap) :
    getMarket t marketId =
      (getMarket s marketId).map (fun mk => { mk with yesShares := v }) := by
  unfold getMarket
  rw [hq, hd, hc, hrd, hu, hcr, hca, hrm, hom, hys, hns]
  cases s.question marketId <;> simp [upd_same]

theorem buyYes_pending_spec (env : Env) (s : ContractState) (marketId : Nat)
    (amount : Int) (market : MarketData)
    (hA : 0 < amount)
    (hm : getMarket s marketId = some market)
    (hres : market.resolved = false)
    (ht : env.time < market.resolveDate)
    (hav : amount ≤ availablePending s env.sender marketId sideYes) :
    ∃ out, buyYes env s marketId amount = .ok out ∧
      out.transfersIn = [] ∧
      out.events = [Event.tradeExecuted (natToStr marketId) env.sender true amount] ∧
      out.state.pendingPay (txKeyOf env.sender marketId sideYes) = none ∧
      out.state.pendingPay (payKeyOf env.sender marketId sideYes) =
        (match s.pendingPay (payKeyOf env.sender marketId sideYes) with
         | none => none
         | some p => if 0 < p - amount then some (p - amount) else none) ∧
      out.state.yesSharesMap =
        upd s.yesSharesMap marketId (some (yesSharesOf s marketId + amount)) ∧
      out.state.userYes =
        upd s.userYes (userKeyOf marketId sideYes env.sender)
          (some (getUserYesShares s marketId env.sender + amount)) ∧
      out.state.noSharesMap = s.noSharesMap ∧
      out.state.userNo = s.userNo ∧
      out.state.question = s.question ∧
      out.state.description = s.description ∧
      out.state.category = s.category ∧
      out.state.resolveDateMap = s.resolveDateMap ∧
      out.state.oracleUrlMap = s.oracleUrlMap ∧
      out.state.creatorMap = s.creatorMap ∧
      out.state.createdAtMap = s.createdAtMap ∧
      out.state.resolvedMap = s.resolvedMap ∧
      out.state.outcomeMap = s.outcomeMap ∧
      out.state.marketCount = s.marketCount ∧
      out.state.contractBalance = s.contractBalance := by
  have hk := payKey_ne_txKey env.sender marketId sideYes
  have hn0 : ¬ amount ≤ 0 := by omega
  have htle : ¬ market.resolveDate ≤ env.time := by omega
  have hnav : ¬ availablePending s env.sender marketId sideYes < amount := by omega
  rcases htxv : s.pendingPay (txKeyOf env.sender marketId sideYes) with _ | tv <;>
    rcases hpayv : s.pendingPay (payKeyOf env.sender marketId sideYes) with _ | pv
  · simp [buyYes, buyShares, hm, hres, htle, hnav, htxv, hpayv, hn0,
      yesSharesOf, getUserYesShares, Ne.symm hk, hk]
  · by_cases hrem : amount < pv <;>
      simp [buyYes, buyShares, hm, hres, htle, hnav, htxv, hpayv, hn0,
        yesSharesOf, getUserYesShares, Ne.symm hk, hk, hrem]
  · simp [buyYes, buyShares, hm, hres, htle, hnav, htxv, hpayv, hn0,
      yesSharesOf, getUserYesShares, Ne.symm hk, hk]
  · by_cases hrem : amount < pv <;>
      simp [buyYes, buyShares, hm, hres, htle, hnav, htxv, hpayv, hn0,
        yesSharesOf, getUserYesShares, Ne.symm hk, hk, hrem]


theorem onNEP17_ok_shape {h : Int} {p : Str} {a : Int} {d : Option Str}
    {s r : ContractState} (hr : onNEP17Payment h p a d s = .ok r) :
    r.yesSharesMap = s.yesSharesMap ∧ r.noSharesMap = s.noSharesMap ∧
    r.resolvedMap = s.resolvedMap ∧ r.outcomeMap = s.outcomeMap ∧
    r.question = s.question ∧ r.marketCount = s.marketCount := by
  simp only [onNEP17Payment] at hr
  repeat' split at hr
  all_goals first
    | exact Except.noConfusion hr
    | (injection hr with hr; subst hr; exact ⟨rfl, rfl, rfl, rfl, rfl, rfl⟩)

theorem requestResolve_ok_state {env : Env} {s : ContractState} {marketId : Nat}
    {u f : Str} {g : Int} {out : InvocationOut}
    (h : requestResolve env s marketId u f g = .ok out) : out.state = s := by
  simp only [requestResolve] at h
  repeat' split at h
  all_goals first
    | exact Except.noConfusion h
    | (injection h with h; subst h; rfl)

theorem payout_ok_state {env : Env} {s : ContractState} {marketId : Nat}
    {out : InvocationOut} (h : payout env s marketId = .ok out) : out.state = s := by
  simp only [payout] at h
  repeat' split at h
  all_goals first
    | exact Except.noConfusion h
    | (injection h with h; subst h; rfl)

theorem onOracleCallback_ok_shape {env : Env} {s : ContractState}
    {url userData : Str} {code : Int} {result : Str} {out : InvocationOut}
    (h : onOracleCallback env s url userData code result = .ok out) :
    out.state.yesSharesMap = s.yesSharesMap ∧ out.state.noSharesMap = s.noSharesMap := by
  simp only [onOracleCallback] at h
  repeat' split at h
  all_goals first
    | exact Except.noConfusion h
    | (injection h with h; subst h; exact ⟨rfl, rfl⟩)

theorem createMarket_ok_shape {env : Env} {s : ContractState}
    {q d c : Str} {rd : Int} {u : Str} {out : InvocationOut}
    (h : createMarket env s q d c rd u = .ok out) :
    out.state.yesSharesMap = upd s.yesSharesMap (s.marketCount + 1) (some 0) ∧
    out.state.noSharesMap = upd s.noSharesMap (s.marketCount + 1) (some 0) := by
  simp only [createMarket] at h
  repeat' split at h
  all_goals first
    | exact Except.noConfusion h
    | (injection h with h; subst h; exact ⟨rfl, rfl⟩)

theorem buyShares_ok_shape {isYes : Bool} {env : Env} {s : ContractState}
    {marketId : Nat} {amount : Int} {out : InvocationOut}
    (h : buyShares isYes env s marketId amount = .ok out) :
    0 < amount ∧ resolvedFlagOf s marketId = false ∧
    out.state.yesSharesMap =
      (if isYes then upd s.yesSharesMap marketId (some (yesSharesOf s marketId + amount))
       else s.yesSharesMap) ∧
    out.state.noSharesMap =
      (if isYes then s.noSharesMap
       else upd s.noSharesMap marketId (some (noSharesOf s marketId + amount))) := by
  by_cases h0 : amount ≤ 0
  · simp [buyShares, h0] at h
  rcases hmk : getMarket s marketId with _ | market
  · simp [buyShares, h0, hmk] at h
  by_cases hres : market.resolved
  · simp [buyShares, h0, hmk, hres] at h
  by_cases htime : market.resolveDate ≤ env.time
  · simp [buyShares, h0, hmk, hres, htime] at h
  have hrflag : resolvedFlagOf s marketId = false := by
    have hf := (getMarket_fields hmk).2.2.1
    rw [← hf]
    simpa using hres
  refine ⟨by omega, hrflag, ?_⟩
  by_cases hav : availablePending s env.sender marketId
      (if isYes then sideYes else sideNo) < amount
  · by_cases htr : env.transferOk
    · rcases honep : onNEP17Payment gasHash env.sender amount
          (some (depositTag marketId (if isYes then sideYes else sideNo))) s with e | sAfter
      · simp [buyShares, h0, hmk, hres, htime, hav, htr, honep] at h
      · by_cases hre : (sAfter.pendingPay (txKeyOf env.sender marketId
              (if isYes then sideYes else sideNo))).getD 0 +
            (sAfter.pendingPay (payKeyOf env.sender marketId
              (if isYes then sideYes else sideNo))).getD 0 < amount
        · simp [buyShares, h0, hmk, hres, htime, hav, htr, honep, hre] at h
        · obtain ⟨hy, hn, _, _, _, _⟩ := onNEP17_ok_shape honep
          rcases htv : sAfter.pendingPay (txKeyOf env.sender marketId
              (if isYes then sideYes else sideNo)) with _ | tv <;>
            rcases hpv : sAfter.pendingPay (payKeyOf env.sender marketId
              (if isYes then sideYes else sideNo)) with _ | pv
          · rw [htv, hpv] at hre
            simp at hre
            omega
          · rw [htv, hpv] at hre
            simp at hre
            have hnpv : ¬ pv < amount := by omega
            by_cases hrm : amount < pv
            · simp [buyShares, h0, hmk, hres, htime, hav, htr, honep, hnpv, htv, hpv, hrm] at h
              subst h
              cases isYes <;> simp [hy, hn, yesSharesOf, noSharesOf]
            · simp [buyShares, h0, hmk, hres, htime, hav, htr, honep, hnpv, htv, hpv, hrm] at h
              subst h
              cases isYes <;> simp [hy, hn, yesSharesOf, noSharesOf]
          · rw [htv, hpv] at hre
            simp at hre
            have hntv : ¬ tv < amount := by omega
            simp [buyShares, h0, hmk, hres, htime, hav, htr, honep, hntv, htv, hpv] at h
            subst h
            cases isYes <;> simp [hy, hn, yesSharesOf, noSharesOf]
          · rw [htv, hpv] at hre
            simp at hre
            have hntp : ¬ tv + pv < amount := by omega
            by_cases hrm : amount < pv <;>
              (simp [buyShares, h0, hmk, hres, htime, hav, htr, honep, hntp, htv, hpv,
                hrm] at h
               subst h
               cases isYes <;> simp [hy, hn, yesSharesOf, noSharesOf])
    · simp [buyShares, h0, hmk, hres, htime, hav, htr] at h
  · rcases htv : s.pendingPay (txKeyOf env.sender marketId
        (if isYes then sideYes else sideNo)) with _ | tv <;>
      rcases hpv : s.pendingPay (payKeyOf env.sender marketId
        (if isYes then sideYes else sideNo)) with _ | pv
    · simp [buyShares, h0, hmk, hres, htime, hav, htv, hpv] at h
      subst h
      cases isYes <;> simp [yesSharesOf, noSharesOf]
    · by_cases hrm : amount < pv <;>
        (simp [buyShares, h0, hmk, hres, htime, hav, htv, hpv, hrm] at h
         subst h
         cases isYes <;> simp [yesSharesOf, noSharesOf])
    · simp [buyShares, h0, hmk, hres, htime, hav, htv, hpv] at h
      subst h
      cases isYes <;> simp [yesSharesOf, noSharesOf]
    · by_cases hrm : amount < pv <;>
        (simp [buyShares, h0, hmk, hres, htime, hav, htv, hpv, hrm] at h
         subst h
         cases isYes <;> simp [yesSharesOf, noSharesOf])

/-! ### Claim theorems -/

/-- Claim C4: an `onOracleCallback` invocation whose immediate caller is
not exactly the oracle contract fails `Unauthorized` regardless of the
url, payload, code and result arguments, and (the invocation being rolled
back) changes no persistent state and emits no event. -/
theorem c4_unauthorized_callback (env : Env) (s : ContractState) (url userData : Str)
    (code : Int) (result : Str) (h : env.callingScriptHash ≠ oracleHash) :
    onOracleCallback env s url userData code result = .error .unauthorized ∧
    finalStateOf env s (.oracleCallbackOp url userData code result) = s ∧
    finalEventsOf env s (.oracleCallbackOp url userData code result) = [] := by
  have hcb : onOracleCallback env s url userData code result = .error .unauthorized := by
    simp [onOracleCallback, h]
  exact ⟨hcb, by simp [finalStateOf, runOp, hcb], by simp [finalEventsOf, runOp, hcb]⟩

/-- Witness for C4 at a concrete non-oracle caller. -/
theorem c4_witness :
    onOracleCallback lateEnv demoState ['u'] (natToStr 1) 0 strYES = .error .unauthorized ∧
    finalStateOf lateEnv demoState (.oracleCallbackOp ['u'] (natToStr 1) 0 strYES) = demoState ∧
    finalEventsOf lateEnv demoState (.oracleCallbackOp ['u'] (natToStr 1) 0 strYES) = [] :=
  c4_unauthorized_callback lateEnv demoState ['u'] (natToStr 1) 0 strYES (by decide)

/-- Claim C3 (code bug): after market 1 is successfully resolved by the
oracle callback, the *identical second* callback invocation does not fail
`AlreadyResolved` — it succeeds and emits a second `MarketResolved`
event.  The reason: the callback stores `resolved` under the
decimal-string key (`strKey 1 = [0x31]`), while `GetMarket` reads the
integer-bytes key (`intKey 1 = [0x01]`), so the resolved flag that guards
re-resolution still reads `false` after a successful resolution. -/
theorem c3_code_bug_double_resolution :
    ((onOracleCallback oracleEnv demoState ['u'] (natToStr 1) 0 strYES).bind
        (fun out => onOracleCallback oracleEnv out.state ['u'] (natToStr 1) 0 strYES)).map
      InvocationOut.events = .ok [Event.marketResolved ['1'] true] ∧
    (onOracleCallback oracleEnv demoState ['u'] (natToStr 1) 0 strYES).map
      (fun out => resolvedFlagOf out.state 1) = .ok false ∧
    (onOracleCallback oracleEnv demoState ['u'] (natToStr 1) 0 strYES).map
      (fun out => out.state.resolvedMap (strKey 1)) = .ok (some [1]) :=
  ⟨rfl, rfl, rfl⟩

/-- Claim C10: for a market id with no stored record, `getProbability`
returns 0 — not 5000 and not a failure (it is a total function). -/
theorem c10_unknown_market_probability_zero (s : ContractState) (marketId : Nat)
    (h : getMarket s marketId = none) :
    getProbability s marketId = 0 ∧ getProbability s marketId ≠ 5000 := by
  have h0 : getProbability s marketId = 0 := by simp [getProbability, h]
  exact ⟨h0, by rw [h0]; decide⟩

/-- Witness for C10: market 2 does not exist in `demoState`. -/
theorem c10_witness :
    getProbability demoState 2 = 0 ∧ getProbability demoState 2 ≠ 5000 :=
  c10_unknown_market_probability_zero demoState 2 (by rfl)

/-- Claim C9: for an existing market (with the non-negative share totals
every reachable store has), `getProbability` lies in `[0, 10000]`, equals
5000 when the pool is empty, and equals
`⌊yesShares * 10000 / (yesShares + noShares)⌋` otherwise (the embedding
is a pure function of the store, so determinism and absence of side
effects hold by construction). -/
theorem c9_probability_range (s : ContractState) (marketId : Nat) (market : MarketData)
    (h : getMarket s marketId = some market)
    (hy : 0 ≤ market.yesShares) (hn : 0 ≤ market.noShares) :
    0 ≤ getProbability s marketId ∧ getProbability s marketId ≤ 10000 ∧
    (market.yesShares + market.noShares = 0 → getProbability s marketId = 5000) ∧
    (market.yesShares + market.noShares ≠ 0 →
      getProbability s marketId =
        market.yesShares * 10000 / (market.yesShares + market.noShares)) := by
  by_cases h0 : market.yesShares + market.noShares = 0
  · refine ⟨?_, ?_, fun _ => ?_, fun hc => absurd h0 hc⟩ <;>
      simp [getProbability, h, h0]
  · have hpos : 0 < market.yesShares + market.noShares := by omega
    have hval : getProbability s marketId =
        market.yesShares * 10000 / (market.yesShares + market.noShares) := by
      simp [getProbability, h, h0]
    refine ⟨?_, ?_, fun hc => absurd hc h0, fun _ => hval⟩
    · rw [hval]
      exact Int.ediv_nonneg (mul_nonneg hy (by norm_num)) (le_of_lt hpos)
    · rw [hval]
      have h1 : market.yesShares * 10000 ≤ (market.yesShares + market.noShares) * 10000 := by
        nlinarith
      calc market.yesShares * 10000 / (market.yesShares + market.noShares)
          ≤ (market.yesShares + market.noShares) * 10000 /
              (market.yesShares + market.noShares) := Int.ediv_le_ediv hpos h1
        _ = 10000 := Int.mul_ediv_cancel_left _ (by omega)

/-- Witness for C9 at `demoState` market 1 (empty pool, probability 5000). -/
theorem c9_witness :
    0 ≤ getProbability demoState 1 ∧ getProbability demoState 1 ≤ 10000 ∧
    (demoMarket.yesShares + demoMarket.noShares = 0 → getProbability demoState 1 = 5000) ∧
    (demoMarket.yesShares + demoMarket.noShares ≠ 0 →
      getProbability demoState 1 =
        demoMarket.yesShares * 10000 / (demoMarket.yesShares + demoMarket.noShares)) :=
  c9_probability_range demoState 1 demoMarket (by rfl) (by decide) (by decide)

/-- Claim C7 (corrected): the claim says any *nonzero* stored content of
any length reads as `true`; in fact `GetMarket` inspects only the first
byte, so `resolved`/`outcome` read `true` exactly when the stored content
is non-empty with a nonzero first byte — content `[0x00, 0x01]` is
nonzero yet reads `false`.  This theorem is the amended
reconstruction rule. -/
theorem c7_bool_reconstruction (s : ContractState) (marketId : Nat) (market : MarketData)
    (h : getMarket s marketId = some market) :
    (market.resolved = true ↔
      ∃ b rest, s.resolvedMap (intKey marketId) = some (b :: rest) ∧ b ≠ 0) ∧
    (market.outcome = true ↔
      ∃ b rest, s.outcomeMap (intKey marketId) = some (b :: rest) ∧ b ≠ 0) := by
  rcases hqq : s.question marketId with _ | q
  · simp only [getMarket, hqq] at h
    exact Option.noConfusion h
  · simp only [getMarket, hqq] at h
    injection h with h'
    subst h'
    exact ⟨rawBool_true_iff _, rawBool_true_iff _⟩

/-- Witness for C7's amended theorem at `demoState` market 1. -/
theorem c7_witness :
    (demoMarket.resolved = true ↔
      ∃ b rest, demoState.resolvedMap (intKey 1) = some (b :: rest) ∧ b ≠ 0) ∧
    (demoMarket.outcome = true ↔
      ∃ b rest, demoState.outcomeMap (intKey 1) = some (b :: rest) ∧ b ≠ 0) :=
  c7_bool_reconstruction demoState 1 demoMarket (by rfl)

/-- Counterexample for C7 as stated: the stored `resolved` content
`[0x00, 0x01]` is present, is not a single zero byte, and is nonzero
(it contains a nonzero byte), yet `getMarket` reconstructs
`resolved = false`. -/
theorem c7_counterexample :
    c7State.resolvedMap (intKey 1) = some zeroOneContent ∧
    zeroOneContent ≠ [] ∧ zeroOneContent ≠ [0] ∧
    zeroOneContent.any (fun b => b != 0) = true ∧
    (getMarket c7State 1).map MarketData.resolved = some false :=
  ⟨rfl, by decide, by decide, by decide, rfl⟩

/-- Claim C5: across each completed invocation of any state-mutating
entry point (createMarket, buyYes, buyNo, requestResolve, the oracle
callback, payout), every market's yesShares and noShares totals are
non-negative and non-decreasing (a faulted invocation is rolled back),
and are left unchanged by every operation on a market whose resolved
flag (as `GetMarket` reads it) is true. -/
theorem c5_shares_monotone (env : Env) (s : ContractState) (op : Op) (m : Nat)
    (hinv : sharesInv s) :
    0 ≤ yesSharesOf s m ∧ 0 ≤ noSharesOf s m ∧
    yesSharesOf s m ≤ yesSharesOf (finalStateOf env s op) m ∧
    noSharesOf s m ≤ noSharesOf (finalStateOf env s op) m ∧
    (resolvedFlagOf s m = true →
      yesSharesOf (finalStateOf env s op) m = yesSharesOf s m ∧
      noSharesOf (finalStateOf env s op) m = noSharesOf s m) := by
  obtain ⟨hy0, hn0, hyc, hnc⟩ := hinv
  have hmain : yesSharesOf s m ≤ yesSharesOf (finalStateOf env s op) m ∧
      noSharesOf s m ≤ noSharesOf (finalStateOf env s op) m ∧
      (resolvedFlagOf s m = true →
        yesSharesOf (finalStateOf env s op) m = yesSharesOf s m ∧
        noSharesOf (finalStateOf env s op) m = noSharesOf s m) := by
    cases op with
    | createMarketOp q d c rd u =>
      rcases hrun : createMarket env s q d c rd u with e | out
      · simp [finalStateOf, runOp, hrun]
      · obtain ⟨hys, hns⟩ := createMarket_ok_shape hrun
        simp only [finalStateOf, runOp, hrun]
        by_cases hm1 : m = s.marketCount + 1
        · subst hm1
          have hyn : s.yesSharesMap (s.marketCount + 1) = none := by
            by_contra hc; exact absurd (hyc _ hc) (by omega)
          have hnn : s.noSharesMap (s.marketCount + 1) = none := by
            by_contra hc; exact absurd (hnc _ hc) (by omega)
          refine ⟨?_, ?_, fun hres => ⟨?_, ?_⟩⟩
          · simp [yesSharesOf, hys, hyn]
          · simp [noSharesOf, hns, hnn]
          · -- both totals of the freshly allocated id are 0 before
            -- (no entry) and 0 after (`createMarket` writes 0)
            simp [yesSharesOf, hys, hyn]
          · simp [noSharesOf, hns, hnn]
        · refine ⟨?_, ?_, fun hres => ?_⟩
          · simp [yesSharesOf, hys, hm1]
          · simp [noSharesOf, hns, hm1]
          · simp [yesSharesOf, noSharesOf, hys, hns, hm1]
    | buyYesOp m0 a =>
      rcases hrun : buyYes env s m0 a with e | out
      · simp [finalStateOf, runOp, hrun]
      · obtain ⟨ha, hrf, hys, hns⟩ := buyShares_ok_shape hrun
        simp only [if_true] at hys hns
        simp only [finalStateOf, runOp, hrun]
        by_cases hm0 : m = m0
        · subst hm0
          refine ⟨?_, ?_, fun hres => ?_⟩
          · simp [yesSharesOf, hys]; omega
          · simp [noSharesOf, hns]
          · exact absurd hres (by simp [hrf])
        · refine ⟨?_, ?_, fun hres => ?_⟩
          · simp [yesSharesOf, hys, hm0]
          · simp [noSharesOf, hns]
          · simp [yesSharesOf, noSharesOf, hys, hns, hm0]
    | buyNoOp m0 a =>
      rcases hrun : buyNo env s m0 a with e | out
      · simp [finalStateOf, runOp, hrun]
      · obtain ⟨ha, hrf, hys, hns⟩ := buyShares_ok_shape hrun
        simp only [Bool.false_eq_true, if_false] at hys hns
        simp only [finalStateOf, runOp, hrun]
        by_cases hm0 : m = m0
        · subst hm0
          refine ⟨?_, ?_, fun hres => ?_⟩
          · simp [yesSharesOf, hys]
          · simp [noSharesOf, hns]; omega
          · exact absurd hres (by simp [hrf])
        · refine ⟨?_, ?_, fun hres => ?_⟩
          · simp [yesSharesOf, hys]
          · simp [noSharesOf, hns, hm0]
          · simp [yesSharesOf, noSharesOf, hys, hns, hm0]
    | requestResolveOp m0 u f g =>
      rcases hrun : requestResolve env s m0 u f g with e | out
      · simp [finalStateOf, runOp, hrun]
      · have hst := requestResolve_ok_state hrun
        simp [finalStateOf, runOp, hrun, hst]
    | oracleCallbackOp u ud c r =>
      rcases hrun : onOracleCallback env s u ud c r with e | out
      · simp [finalStateOf, runOp, hrun]
      · obtain ⟨hys, hns⟩ := onOracleCallback_ok_shape hrun
        simp [finalStateOf, runOp, hrun, yesSharesOf, noSharesOf, hys, hns]
    | payoutOp m0 =>
      rcases hrun : payout env s m0 with e | out
      · simp [finalStateOf, runOp, hrun]
      · have hst := payout_ok_state hrun
        simp [finalStateOf, runOp, hrun, hst]
  exact ⟨hy0 m, hn0 m, hmain.1, hmain.2.1, hmain.2.2⟩

/-- Witness for C5: a `createMarket` invocation on a concrete
well-formed store. -/
theorem c5_witness :
    0 ≤ yesSharesOf openDemoState 1 ∧ 0 ≤ noSharesOf openDemoState 1 ∧
    yesSharesOf openDemoState 1 ≤
      yesSharesOf (finalStateOf tradeEnv openDemoState
        (Op.createMarketOp ['q'] ['d'] ['c'] 900 ['u'])) 1 ∧
    noSharesOf openDemoState 1 ≤
      noSharesOf (finalStateOf tradeEnv openDemoState
        (Op.createMarketOp ['q'] ['d'] ['c'] 900 ['u'])) 1 ∧
    (resolvedFlagOf openDemoState 1 = true →
      yesSharesOf (finalStateOf tradeEnv openDemoState
        (Op.createMarketOp ['q'] ['d'] ['c'] 900 ['u'])) 1 = yesSharesOf openDemoState 1 ∧
      noSharesOf (finalStateOf tradeEnv openDemoState
        (Op.createMarketOp ['q'] ['d'] ['c'] 900 ['u'])) 1 = noSharesOf openDemoState 1) :=
  c5_shares_monotone tradeEnv openDemoState (Op.createMarketOp ['q'] ['d'] ['c'] 900 ['u']) 1
    (by
      refine ⟨fun m => ?_, fun m => ?_, fun m hc => ?_, fun m hc => ?_⟩
      · by_cases h : m = 1 <;> simp [openDemoState, demoState, yesSharesOf, h]
      · by_cases h : m = 1 <;> simp [openDemoState, demoState, noSharesOf, h]
      · by_cases h : m = 1
        · simp [openDemoState, demoState, h]
        · simp [openDemoState, demoState, h] at hc
      · by_cases h : m = 1
        · simp [openDemoState, demoState, h]
        · simp [openDemoState, demoState, h] at hc)

/-- Claim C2: depositing X tagged (m, "yes") with no prior pending
balance, then calling `buyYes(m, A)` with `0 < A ≤ X` on an existing
unresolved market before its resolve date, succeeds with no pull
transfer, leaves a payer-scoped residual of exactly `X - A` (the entry
deleted when the residual is zero), increases the payer's yes position
and the market's yesShares by exactly A, and the persisted remainder is
usable by a later, separate `buyYes`. -/
theorem c2_deposit_then_buy (env : Env) (s : ContractState) (marketId : Nat)
    (X A : Int) (market : MarketData)
    (hA : 0 < A) (hAX : A ≤ X)
    (htx : s.pendingPay (txKeyOf env.sender marketId sideYes) = none)
    (hpay : s.pendingPay (payKeyOf env.sender marketId sideYes) = none)
    (hm : getMarket s marketId = some market)
    (hres : market.resolved = false)
    (ht : env.time < market.resolveDate) :
    ∃ s' out,
      onNEP17Payment gasHash env.sender X (some (depositTag marketId sideYes)) s = .ok s' ∧
      buyYes env s' marketId A = .ok out ∧
      out.transfersIn = [] ∧
      out.state.pendingPay (txKeyOf env.sender marketId sideYes) = none ∧
      out.state.pendingPay (payKeyOf env.sender marketId sideYes) =
        (if 0 < X - A then some (X - A) else none) ∧
      yesSharesOf out.state marketId = yesSharesOf s marketId + A ∧
      getUserYesShares out.state marketId env.sender =
        getUserYesShares s marketId env.sender + A ∧
      out.events = [Event.tradeExecuted (natToStr marketId) env.sender true A] ∧
      (∀ env2 : Env, env2.sender = env.sender → env2.time < market.resolveDate →
        0 < X - A →
        ∃ out2, buyYes env2 out.state marketId (X - A) = .ok out2 ∧
          out2.transfersIn = [] ∧
          yesSharesOf out2.state marketId = yesSharesOf s marketId + X) := by
  have hk := payKey_ne_txKey env.sender marketId sideYes
  have hX : 0 < X := by omega
  have hdep := onNEP17_deposit_fresh_yes s env.sender marketId X hX htx hpay
  set s2 := { s with pendingPay :=
    (upd (upd s.pendingPay (txKeyOf env.sender marketId sideYes) (some X))
      (payKeyOf env.sender marketId sideYes) (some X)) } with hs2
  have hm2 : getMarket s2 marketId = some market := hm
  have hpayv2 : s2.pendingPay (payKeyOf env.sender marketId sideYes) = some X := by
    simp [hs2]
  have htxv2 : s2.pendingPay (txKeyOf env.sender marketId sideYes) = some X := by
    simp [hs2, Ne.symm hk]
  have hav2 : A ≤ availablePending s2 env.sender marketId sideYes := by
    simp [availablePending, hs2, Ne.symm hk]; omega
  obtain ⟨out, hbuy, hti, hev, htxo, hpayo, hyes, huser, hno, huno, hq, hd, hc,
    hrd, hu, hcr, hca, hrm, hom, hmc, hcb⟩ :=
    buyYes_pending_spec env s2 marketId A market hA hm2 hres ht hav2
  have hpayo2 : out.state.pendingPay (payKeyOf env.sender marketId sideYes) =
      (if 0 < X - A then some (X - A) else none) := by
    rw [hpayo, hpayv2]
  have hyes2 : yesSharesOf out.state marketId = yesSharesOf s marketId + A := by
    simp [yesSharesOf, hyes]
  have huser2 : getUserYesShares out.state marketId env.sender =
      getUserYesShares s marketId env.sender + A := by
    simp [getUserYesShares, huser]
  refine ⟨s2, out, hdep, hbuy, hti, htxo, hpayo2, hyes2, huser2, hev, ?_⟩
  intro env2 he2 ht2 hrem
  have hmm : getMarket out.state marketId =
      some { market with yesShares := yesSharesOf s2 marketId + A } := by
    rw [getMarket_congr marketId (yesSharesOf s2 marketId + A) hq hd hc hrd hu hcr
      hca hrm hom hyes hno, hm2]
    rfl
  have hres3 : ({ market with yesShares := yesSharesOf s2 marketId + A } :
      MarketData).resolved = false := hres
  have ht3 : env2.time < ({ market with yesShares := yesSharesOf s2 marketId + A } :
      MarketData).resolveDate := ht2
  have hav3 : X - A ≤ availablePending out.state env2.sender marketId sideYes := by
    rw [he2]
    simp [availablePending, htxo, hpayo2, hrem]
  obtain ⟨out2, hbuy2, hti2, hev2, htxo2, hpayo2b, hyes2b, _⟩ :=
    buyYes_pending_spec env2 out.state marketId (X - A)
      { market with yesShares := yesSharesOf s2 marketId + A } hrem hmm hres3 ht3 hav3
  refine ⟨out2, hbuy2, hti2, ?_⟩
  have : yesSharesOf out2.state marketId = yesSharesOf out.state marketId + (X - A) := by
    simp [yesSharesOf, hyes2b]
  rw [this, hyes2]
  ring

/-- Witness for C2: deposit 5, buy 3, residual 2, on `demoState`. -/
theorem c2_witness :
    ∃ s' out,
      onNEP17Payment gasHash tradeEnv.sender 5 (some (depositTag 1 sideYes)) demoState =
        .ok s' ∧
      buyYes tradeEnv s' 1 3 = .ok out ∧
      out.transfersIn = [] ∧
      out.state.pendingPay (txKeyOf tradeEnv.sender 1 sideYes) = none ∧
      out.state.pendingPay (payKeyOf tradeEnv.sender 1 sideYes) =
        (if 0 < (5 : Int) - 3 then some (5 - 3) else none) ∧
      yesSharesOf out.state 1 = yesSharesOf demoState 1 + 3 ∧
      getUserYesShares out.state 1 tradeEnv.sender =
        getUserYesShares demoState 1 tradeEnv.sender + 3 ∧
      out.events = [Event.tradeExecuted (natToStr 1) tradeEnv.sender true 3] ∧
      (∀ env2 : Env, env2.sender = tradeEnv.sender →
        env2.time < demoMarket.resolveDate → 0 < (5 : Int) - 3 →
        ∃ out2, buyYes env2 out.state 1 ((5 : Int) - 3) = .ok out2 ∧
          out2.transfersIn = [] ∧
          yesSharesOf out2.state 1 = yesSharesOf demoState 1 + 5) :=
  c2_deposit_then_buy tradeEnv demoState 1 5 3 demoMarket (by decide) (by decide)
    (by rfl) (by rfl) (by rfl) (by rfl) (by decide)

/-- Claim C1 (code bug): after a single deposit of `X` tagged
`"<m>_yes"` with no prior pending credits for (payer, m, yes), the
pending balance a later `buyYes` finds available (`availablePending`,
the sum read at source lines 162-175) is `2 * X`, not the claimed `X`:
the "transaction-scoped" entry is keyed by payer+market+side only
(nothing identifies the invocation), persists across invocations, and is
double-counted with the payer-scoped entry. -/
theorem c1_code_bug_double_count (s : ContractState) (payer : Str) (marketId : Nat)
    (X : Int) (hX : 0 < X)
    (htx : s.pendingPay (txKeyOf payer marketId sideYes) = none)
    (hpay : s.pendingPay (payKeyOf payer marketId sideYes) = none) :
    ∃ s', onNEP17Payment gasHash payer X (some (depositTag marketId sideYes)) s = .ok s' ∧
      availablePending s' payer marketId sideYes = X + X ∧
      availablePending s' payer marketId sideYes ≠ X := by
  have hk := payKey_ne_txKey payer marketId sideYes
  have hav : availablePending
      { s with pendingPay :=
        (upd (upd s.pendingPay (txKeyOf payer marketId sideYes) (some X))
          (payKeyOf payer marketId sideYes) (some X)) }
      payer marketId sideYes = X + X := by
    simp [availablePending, Ne.symm hk]
  exact ⟨_, onNEP17_deposit_fresh_yes s payer marketId X hX htx hpay, hav,
    by rw [hav]; omega⟩

/-- Witness for C1's theorem: deposit of 5 into `demoState`. -/
theorem c1_witness :
    ∃ s', onNEP17Payment gasHash alice 5 (some (depositTag 1 sideYes)) demoState = .ok s' ∧
      availablePending s' alice 1 sideYes = 5 + 5 ∧
      availablePending s' alice 1 sideYes ≠ 5 :=
  c1_code_bug_double_count demoState alice 1 5 (by decide) (by rfl) (by rfl)

/-- Claim C8: in the oracle callback, under an authorized caller, the
success code and a known unresolved market, yes is matched before no:
any result containing `"yes"` case-insensitively (in particular one
containing both yes and no, and either quoting style) resolves the
market with outcome true, one containing `"no"` but not `"yes"` resolves
it with outcome false, and one containing neither fails `InvalidFormat`. -/
theorem c8_result_parsing (env : Env) (s : ContractState) (url userData result : Str)
    (marketId : Nat) (market : MarketData)
    (hauth : env.callingScriptHash = oracleHash)
    (hud : parseNat? userData = some marketId)
    (hm : getMarket s marketId = some market)
    (hres : market.resolved = false) :
    (containsSub strYES (upperStr result) = true →
      onOracleCallback env s url userData 0 result =
        .ok ⟨{ s with
            resolvedMap := upd s.resolvedMap (strKey marketId) (some [1])
            outcomeMap := (upd s.outcomeMap (strKey marketId) (some [1])) },
          [Event.marketResolved (natToStr marketId) true], [], []⟩) ∧
    (containsSub strYES (upperStr result) = false →
      containsSub strNO (upperStr result) = true →
      onOracleCallback env s url userData 0 result =
        .ok ⟨{ s with
            resolvedMap := upd s.resolvedMap (strKey marketId) (some [1])
            outcomeMap := (upd s.outcomeMap (strKey marketId) (some [0])) },
          [Event.marketResolved (natToStr marketId) false], [], []⟩) ∧
    (containsSub strYES (upperStr result) = false →
      containsSub strNO (upperStr result) = false →
      onOracleCallback env s url userData 0 result = .error .invalidFormat) := by
  refine ⟨fun hy => ?_, fun hy hn => ?_, fun hy hn => ?_⟩
  · simpa using onOracleCallback_resolves env s url userData result marketId market
      true hauth hud hm hres (parseOutcome_yes hy)
  · simpa using onOracleCallback_resolves env s url userData result marketId market
      false hauth hud hm hres (parseOutcome_no hy hn)
  · simp [onOracleCallback, hauth, hud, hm, hres, parseOutcome_invalid hy hn]

/-- Witness for C8 at `demoState` market 1 with result `"YES"`. -/
theorem c8_witness :
    onOracleCallback oracleEnv demoState ['u'] (natToStr 1) 0 strYES =
      .ok ⟨{ demoState with
          resolvedMap := upd demoState.resolvedMap (strKey 1) (some [1])
          outcomeMap := (upd demoState.outcomeMap (strKey 1) (some [1])) },
        [Event.marketResolved (natToStr 1) true], [], []⟩ :=
  (c8_result_parsing oracleEnv demoState ['u'] (natToStr 1) strYES 1 demoMarket
    rfl (by rfl) (by rfl) (by rfl)).1 (by decide)

/-- Claim C6 (corrected): `payout` fails as the claim says on a missing
or unresolved market and on an empty pool, and it emits the
`PayoutDistributed` event naming the caller and the entire contract
balance — but it pays nothing: the source performs no token transfer at
all (the per-share rates are computed and discarded), leaving the store,
and in particular the contract's balance, unchanged. -/
theorem c6_payout_behavior (env : Env) (s : ContractState) (marketId : Nat) :
    (getMarket s marketId = none → payout env s marketId = .error .marketNotFound) ∧
    (∀ market, getMarket s marketId = some market → market.resolved = false →
      payout env s marketId = .error .notResolved) ∧
    (∀ market, getMarket s marketId = some market → market.resolved = true →
      market.yesShares + market.noShares = 0 →
      payout env s marketId = .error .emptyPool) ∧
    (∀ market, getMarket s marketId = some market → market.resolved = true →
      market.yesShares + market.noShares ≠ 0 →
      payout env s marketId =
        .ok ⟨s, [Event.payoutDistributed (natToStr marketId) env.sender s.contractBalance],
          [], []⟩) := by
  refine ⟨fun h => by simp [payout, h],
    fun market hm hr => by simp [payout, hm, hr],
    fun market hm hr h0 => by simp [payout, hm, hr, h0],
    fun market hm hr h0 => by simp [payout, hm, hr, h0]⟩

/-- Witness for C6's amended theorem: a resolved market with a non-empty
pool; the event names the caller and the whole balance, and the returned
store is the input store. -/
theorem c6_witness :
    payout lateEnv resolvedDemoState 1 =
      .ok ⟨resolvedDemoState, [Event.payoutDistributed ['1'] alice 100], [], []⟩ := by
  exact (c6_payout_behavior lateEnv resolvedDemoState 1).2.2.2 _ (by rfl) (by rfl) (by decide)

/-- Counterexample for C6 as stated: with a contract balance of 100, a
successful `payout` performs no outbound transfer (so it does not "pay
the engine's entire token balance to the caller"), although it emits the
event claiming recipient `alice` and amount 100; the balance is
unchanged. -/
theorem c6_counterexample :
    resolvedDemoState.contractBalance = 100 ∧
    (payout lateEnv resolvedDemoState 1).map InvocationOut.transfersOut = .ok [] ∧
    (payout lateEnv resolvedDemoState 1).map InvocationOut.events =
      .ok [Event.payoutDistributed ['1'] alice 100] ∧
    (payout lateEnv resolvedDemoState 1).map (fun out => out.state.contractBalance) =
      .ok 100 :=
  ⟨rfl, rfl, rfl, rfl⟩

end NoroSpec
